import Mathlib

/- Verification of the routing and write-path core of the influx-proxy
backend package (cluster.go, backends.go).  Go byte slices are modelled as
`List Nat` (each element a byte value), Go `int64`/`int32` arithmetic as
`Int` normalised by an explicit two's-complement wrap, and fallible Go
functions as `Option`/sum results. -/

set_option maxRecDepth 8000

/- Two's-complement wrap of an `Int` into the `int64` range, mirroring Go's
defined wraparound semantics for signed 64-bit overflow. -/
def wrap64 (x : Int) : Int := (x + 2 ^ 63) % 2 ^ 64 - 2 ^ 63

/- Two's-complement wrap into the `int32` range (Go `int32`). -/
def wrap32 (x : Int) : Int := (x + 2 ^ 31) % 2 ^ 32 - 2 ^ 31

/- Byte values of a string literal, used to build concrete inputs. -/
def strBytes (s : String) : List Nat := s.data.map (fun c => c.toNat)

/- Big-endian decimal digits of `n`; the first argument is structural fuel
(any fuel `>= n` gives the digits of `n`). -/
def decimalDigitsAux : Nat → Nat → List Nat
  | 0, _ => []
  | fuel + 1, n => if n = 0 then [] else decimalDigitsAux fuel (n / 10) ++ [n % 10]

/- Decimal ASCII bytes of a natural number, as produced by Go's
`strconv.FormatInt` on non-negative input (`0` prints as "0").  Twenty
digits of fuel cover every value below `10^20`, in particular the whole
`int64` range this model feeds in. -/
def decimalBytes (n : Nat) : List Nat :=
  if n = 0 then [48] else (decimalDigitsAux 20 n).map (fun d => d + 48)

/- `Int64ToBytes` (cluster.go): `strconv.FormatInt(i, 10)` as bytes; a
negative value is a '-' (byte 45) followed by the digits of its magnitude. -/
def Int64ToBytes (i : Int) : List Nat :=
  if i < 0 then 45 :: decimalBytes (-i).toNat else decimalBytes i.toNat

/- `BytesToInt64` (cluster.go): `ans = ans*10 + int64(buf[i]-'0')` over all
bytes.  `buf[i]-'0'` is Go `uint8` subtraction, i.e. `(b + 208) % 256`, and
the `int64` accumulation wraps on overflow. -/
def BytesToInt64 (buf : List Nat) : Int :=
  buf.foldl (fun ans b => wrap64 (ans * 10 + (((b + 208) % 256 : Nat) : Int))) 0

/- Outcome of `ScanKey` (cluster.go): the measurement key, the `io.EOF`
error when the buffer ends before a space or comma, or an out-of-range
index access (`pointbuf[i]` with `i = len(pointbuf)`), which in Go is a
runtime panic. -/
inductive ScanResult where
  | key (k : List Nat)
  | eofErr
  | indexPanic
deriving DecidableEq

/- Loop of `ScanKey`: byte 92 is a backslash (consumes and copies the next
byte), bytes 32 and 44 (space, comma) end the key; anything else is copied. -/
def ScanKeyAux : List Nat → List Nat → ScanResult
  | [], _ => .eofErr
  | b :: rest, acc =>
    if b = 92 then
      match rest with
      | [] => .indexPanic
      | c :: rest2 => ScanKeyAux rest2 (acc ++ [c])
    else if b = 32 ∨ b = 44 then .key acc
    else ScanKeyAux rest (acc ++ [b])

/- `ScanKey` (cluster.go): extract the measurement key from a line. -/
def ScanKey (pointbuf : List Nat) : ScanResult := ScanKeyAux pointbuf []

/- The cutset of `bytes.TrimRight(line, " \t\r\n")` in `WriteRow`. -/
def isTrimByte (b : Nat) : Bool := b = 32 ∨ b = 9 ∨ b = 13 ∨ b = 10

/- `bytes.TrimRight(line, " \t\r\n")`: drop trailing whitespace bytes. -/
def trimRightWS (p : List Nat) : List Nat := (p.reverse.dropWhile isTrimByte).reverse

/- `bytes.Split(line, []byte(" "))`: split on every single space byte; `n`
separators yield `n+1` pieces. -/
def splitSpace : List Nat → List (List Nat)
  | [] => [[]]
  | b :: rest =>
    if b = 32 then [] :: splitSpace rest
    else
      match splitSpace rest with
      | [] => [[b]]
      | piece :: pieces => (b :: piece) :: pieces

/- `bytes.Join(slices, []byte(" "))`. -/
def joinSpace : List (List Nat) → List Nat
  | [] => []
  | [x] => x
  | x :: xs => x ++ 32 :: joinSpace xs

/- Go map lookup over an association list (`m[k]` with the comma-ok form):
the value of the first entry whose key equals `k`, if any. -/
def lookupKey {β : Type} (m : List (List Nat × β)) (k : List Nat) : Option β :=
  (m.find? (fun kv => kv.1 == k)).map (fun kv => kv.2)

/- The special fallback key `"_default_"` of the routing table. -/
def defaultKeyBytes : List Nat := strBytes "_default_"

/- `GetBackends` (cluster.go): resolve the backend list for a measurement in
a database.  `β` stands for the `[]BackendAPI` value stored in the table.
The prefix pass iterates the key map in its list order (the Go source
iterates a map in unspecified order). -/
def GetBackends {β : Type} (m2bs : List (List Nat × List (List Nat × β)))
    (measurement db : List Nat) : Option β :=
  match lookupKey m2bs db with
  | none => none
  | some keyMap =>
    match lookupKey keyMap measurement with
    | some bs => some bs
    | none =>
      match keyMap.find? (fun kv => kv.1.isPrefixOf measurement) with
      | some kv => some kv.2
      | none => lookupKey keyMap defaultKeyBytes

/- Result of `CheckQuery` (cluster.go): `nil` or `ErrQueryForbidden`. -/
inductive CheckResult where
  | ok
  | queryForbidden
deriving DecidableEq

/- `CheckQuery` (cluster.go): the denylist (`ForbiddenQuery`) is scanned
first and any match rejects; then, when the allowlist (`ObligatedQuery`) is
non-empty, some allowlist match is required.  Regexes are abstracted as
boolean predicates on the query string. -/
def CheckQuery (forbiddenQuery obligatedQuery : List (String → Bool))
    (q : String) : CheckResult :=
  if forbiddenQuery.any (fun fq => fq q) then .queryForbidden
  else if obligatedQuery.isEmpty then .ok
  else if obligatedQuery.any (fun pq => pq q) then .ok
  else .queryForbidden

/- Modelled from the influxdb library (`models.GetPrecisionMultiplier`, a
dependency of this repository, not part of src/): the nanoseconds-per-unit
multiplier of a precision string; the default branch (including "ns") is 1. -/
def GetPrecisionMultiplier (precision : String) : Int :=
  if precision = "u" then 1000
  else if precision = "ms" then 1000000
  else if precision = "s" then 1000000000
  else if precision = "m" then 60000000000
  else if precision = "h" then 3600000000000
  else 1

/- `WriteRow` (cluster.go) as a pure function: the routed destinations and
the emitted line, or `none` when the row is dropped (empty after trimming,
key scan failure, or no route).  `γ` is the backend handle type and `now`
the value of `time.Now().UnixNano()`.  A line with neither two nor three
space-separated fields leaves the output buffer holding only the formatted
timestamp `0`, exactly as the source does. -/
def WriteRow {γ : Type} (m2bs : List (List Nat × List (List Nat × List γ)))
    (line : List Nat) (precision : String) (db : List Nat) (now : Int) :
    Option (List γ × List Nat) :=
  let l := trimRightWS line
  if l = [] then none
  else
    match ScanKey l with
    | .key k =>
      match GetBackends m2bs k db with
      | none => none
      | some bs =>
        let lines := splitSpace l
        let d := GetPrecisionMultiplier precision
        if lines.length = 2 then
          some (bs, l ++ 32 :: Int64ToBytes (wrap64 (Int.tdiv now d * d)))
        else if lines.length = 3 then
          let t := BytesToInt64 (lines.getLast?.getD [])
          some (bs, joinSpace lines.dropLast ++ 32 :: Int64ToBytes (wrap64 (Int.tdiv t d * d)))
        else
          some (bs, Int64ToBytes 0)
    | _ => none

/- The chunks produced by the `buf.ReadBytes('\n')` loop of `Write`
(cluster.go): each chunk keeps its trailing newline; a final fragment
without a newline is returned as-is; the loop stops on an empty chunk. -/
def readChunksAux : List Nat → List Nat → List (List Nat)
  | [], acc => if acc.isEmpty then [] else [acc.reverse]
  | b :: rest, acc =>
    if b = 10 then (acc.reverse ++ [10]) :: readChunksAux rest []
    else readChunksAux rest (b :: acc)

def readChunks (p : List Nat) : List (List Nat) := readChunksAux p []

/- `Write` (cluster.go) as the list of performed backend writes, in order:
every line of the payload goes through `WriteRow` to its routed backends,
and afterwards the original payload `p` is written to every next-hop peer
in `bas`. -/
def ClusterWrite {γ : Type} (m2bs : List (List Nat × List (List Nat × List γ)))
    (bas : List γ) (p : List Nat) (precision : String) (db : List Nat)
    (now : Int) : List (γ × List Nat) :=
  ((readChunks p).map (fun line =>
      match WriteRow m2bs line precision db now with
      | none => []
      | some (bs, out) => bs.map (fun b => (b, out)))).flatten
    ++ bas.map (fun ba => (ba, p))

/- Observable state of one `BackendAPI` as used by the dispatch section of
`Query` (cluster.go): its zone, `IsActive()`, `IsWriteOnly()`, and whether
its `Query` call returns nil. -/
structure ApiState where
  zone : String
  active : Bool
  writeOnly : Bool
  queryOk : Bool
deriving DecidableEq

/- One dispatch pass: try each backend in order, stopping after the first
whose query succeeds; every tried backend is recorded. -/
def tryUntilSuccess : List ApiState → List ApiState
  | [] => []
  | a :: rest => if a.queryOk then [a] else a :: tryUntilSuccess rest

/- The backends that are sent the query by the two dispatch passes of
`Query` (cluster.go, lines 465-489): first the backends of the local zone
that are active and not write-only; if none succeeded, the active backends
of other zones (the source checks only `IsActive()` there). -/
def QueryDispatchTried (localZone : String) (apis : List ApiState) :
    List ApiState :=
  let tried1 := tryUntilSuccess
    (apis.filter (fun a => a.zone == localZone && a.active && !a.writeOnly))
  if tried1.any (fun a => a.queryOk) then tried1
  else tried1 ++ tryUntilSuccess
    (apis.filter (fun a => !(a.zone == localZone) && a.active))

/- Buffer state of a `Backends` pipeline (backends.go): the accumulated
bytes (`nil` when no buffer is allocated), the pending flush timer with its
interval in milliseconds (`none` when no timer is armed), and the `int32`
row counter. -/
structure BufState where
  buffer : Option (List Nat)
  timer : Option Int
  counter : Int
deriving DecidableEq

/- `Flush` (backends.go) on the buffer state: a nil buffer returns at once;
otherwise buffer, timer and counter are reset and the non-empty contents
are handed to the detached flush task (the returned payload). -/
def FlushState (s : BufState) : BufState × Option (List Nat) :=
  match s.buffer with
  | none => (s, none)
  | some p => (⟨none, none, 0⟩, if p.isEmpty then none else some p)

/- `WriteBuffer` (backends.go): append the payload and a newline when the
payload lacks one, bump the row counter, then flush when the counter
reached `MaxRowLimit`, else arm the flush timer if none is armed.  An empty
payload makes the source read `p[len(p)-1]` out of range (panic), modelled
as `none`. -/
def WriteBuffer (maxRowLimit interval : Int) (s : BufState) (p : List Nat) :
    Option (BufState × Option (List Nat)) :=
  if p.isEmpty then none
  else
    let c := wrap32 (s.counter + 1)
    let buf := s.buffer.getD [] ++ p ++ (if p.getLast? = some 10 then [] else [10])
    let s1 : BufState := ⟨some buf, s.timer, c⟩
    if maxRowLimit ≤ c then some (FlushState s1)
    else if s.timer = none then some (⟨some buf, some interval, c⟩, none)
    else some (s1, none)

/- Outcome of `HttpBackend.WriteCompressed` as distinguished by its callers
(backends.go): nil, `ErrBadRequest`, `ErrNotFound`, or any other error. -/
inductive WcResult where
  | ok
  | badRequest
  | notFound
  | otherErr
deriving DecidableEq

/- A spool cursor operation performed by `Rewrite` (backends.go). -/
inductive MetaAction where
  | updateMeta
  | rollbackMeta
deriving DecidableEq

/- `Rewrite` (backends.go): read one spool record and try the upstream.
`readResult` models `fb.Read()` (error, empty spool, or a record);
`writeCompressed` models the upstream outcome per record.  Returns the
cursor operations performed and whether `Rewrite` returns a non-nil error.
Meta operations themselves are modelled as succeeding, hence a successful
`RollbackMeta` makes `Rewrite` return nil (the source overwrites `err`). -/
def Rewrite (readResult : Except Unit (Option (List Nat)))
    (writeCompressed : List Nat → WcResult) : List MetaAction × Bool :=
  match readResult with
  | .error _ => ([], true)
  | .ok none => ([], false)
  | .ok (some p) =>
    match writeCompressed p with
    | .ok => ([.updateMeta], false)
    | .badRequest => ([.updateMeta], false)
    | .notFound => ([.updateMeta], false)
    | .otherErr => ([.rollbackMeta], false)

/- What one iteration of `RewriteLoop` (backends.go) does between two spool
probes: exit when not running, sleep `RewriteInterval` then retry when the
upstream is inactive or `Rewrite` returned an error, otherwise continue to
the next record immediately. -/
inductive LoopStep where
  | exit
  | sleepRetry
  | continueNow
deriving DecidableEq

def RewriteLoopStep (running active : Bool)
    (readResult : Except Unit (Option (List Nat)))
    (writeCompressed : List Nat → WcResult) : LoopStep × List MetaAction :=
  if !running then (.exit, [])
  else if !active then (.sleepRetry, [])
  else
    match Rewrite readResult writeCompressed with
    | (acts, true) => (.sleepRetry, acts)
    | (acts, false) => (.continueNow, acts)

lemma wrap64_eq_of_bounds (x : Int) (h0 : -(2 ^ 63) ≤ x) (h1 : x < 2 ^ 63) :
    wrap64 x = x := by
  unfold wrap64
  have hlt : x + 2 ^ 63 < 2 ^ 64 := by omega
  have hge : (0 : Int) ≤ x + 2 ^ 63 := by omega
  rw [Int.emod_eq_of_lt hge hlt]
  omega

/- Every digit produced by `decimalDigitsAux` is below 10. -/
lemma decimalDigitsAux_lt_ten :
    ∀ (fuel n : Nat), ∀ d ∈ decimalDigitsAux fuel n, d < 10 := by
  intro fuel
  induction fuel with
  | zero => intro n d hd; simp [decimalDigitsAux] at hd
  | succ fuel ih =>
      intro n d hd
      by_cases hn : n = 0
      · simp [decimalDigitsAux, hn] at hd
      · simp only [decimalDigitsAux, hn, if_false, List.mem_append,
          List.mem_singleton] at hd
        rcases hd with hd | hd
        · exact ih _ _ hd
        · subst hd; exact Nat.mod_lt _ (by norm_num)

/- Folding `s*10+d` over the big-endian digits of `n` starting from `a`
reconstructs `a * 10^k + n`, provided the fuel covers all digits of `n`. -/
lemma foldl_decimalDigitsAux (fuel : Nat) :
    ∀ n a, n < 10 ^ fuel →
      (decimalDigitsAux fuel n).foldl (fun s d => s * 10 + d) a
        = a * 10 ^ (decimalDigitsAux fuel n).length + n := by
  induction fuel with
  | zero =>
      intro n a hn
      simp only [pow_zero, Nat.lt_one_iff] at hn
      subst hn
      simp [decimalDigitsAux]
  | succ fuel ih =>
      intro n a hn
      by_cases hn0 : n = 0
      · simp [decimalDigitsAux, hn0]
      · have hdiv : n / 10 < 10 ^ fuel := by
          rw [pow_succ] at hn
          omega
        simp only [decimalDigitsAux, hn0, if_false]
        rw [List.foldl_append, ih (n / 10) a hdiv]
        simp only [List.foldl_cons, List.foldl_nil, List.length_append,
          List.length_singleton]
        have := Nat.div_add_mod n 10
        ring_nf
        omega

/- The running value of the fold never decreases along the list. -/
lemma foldl_digits_le (l : List Nat) :
    ∀ a : Nat, a ≤ l.foldl (fun s d => s * 10 + d) a := by
  induction l with
  | nil => intro a; simp
  | cons d l ih =>
      intro a
      have h1 : a ≤ a * 10 + d := by omega
      calc a ≤ a * 10 + d := h1
        _ ≤ l.foldl (fun s d => s * 10 + d) (a * 10 + d) := ih _

/- As long as the final value stays below `2^63`, the wrapping `int64` fold
of `BytesToInt64` agrees with the exact natural-number fold. -/
lemma foldl_wrap_eq_foldl (l : List Nat) :
    ∀ a : Nat, l.foldl (fun s d => s * 10 + d) a < 2 ^ 63 →
      l.foldl (fun (ans : Int) (d : Nat) => wrap64 (ans * 10 + (d : Int))) (a : Int)
        = ((l.foldl (fun s d => s * 10 + d) a : Nat) : Int) := by
  induction l with
  | nil => intro a _; simp
  | cons d l ih =>
      intro a hbound
      simp only [List.foldl_cons] at hbound ⊢
      have hstep : a * 10 + d ≤ l.foldl (fun s d => s * 10 + d) (a * 10 + d) :=
        foldl_digits_le l _
      have hlt : (a : Int) * 10 + (d : Int) < 2 ^ 63 := by
        have h1 : ((a * 10 + d : Nat) : Int) < ((2 ^ 63 : Nat) : Int) := by
          exact_mod_cast Nat.lt_of_le_of_lt hstep hbound
        push_cast at h1 ⊢
        omega
      have hge : -(2 ^ 63 : Int) ≤ (a : Int) * 10 + (d : Int) := by
        have h0 : (0 : Int) ≤ (a : Int) * 10 + (d : Int) := by positivity
        omega
      rw [wrap64_eq_of_bounds _ hge hlt]
      have hcast : (a : Int) * 10 + (d : Int) = ((a * 10 + d : Nat) : Int) := by
        push_cast; ring
      rw [hcast]
      exact ih (a * 10 + d) hbound

/- Parsing the decimal bytes of `n < 2^63` with the Go accumulation recovers
`n` exactly: every intermediate value fits in `int64`, so no wrap occurs. -/
lemma BytesToInt64_decimalBytes (n : Nat) (h : n < 2 ^ 63) :
    BytesToInt64 (decimalBytes n) = (n : Int) := by
  by_cases hn : n = 0
  · subst hn; decide
  · unfold BytesToInt64 decimalBytes
    simp only [hn, if_false]
    rw [List.foldl_map]
    have hdig := decimalDigitsAux_lt_ten 20 n
    have hfold : (decimalDigitsAux 20 n).foldl
        (fun (ans : Int) (d : Nat) => wrap64 (ans * 10 + (((d + 48 + 208) % 256 : Nat) : Int))) 0
        = (decimalDigitsAux 20 n).foldl
            (fun (ans : Int) (d : Nat) => wrap64 (ans * 10 + (d : Int))) 0 := by
      apply List.foldl_ext
      intro ans d hd
      have h10 : d < 10 := hdig d hd
      have hmod : (d + 48 + 208) % 256 = d := by omega
      rw [hmod]
    rw [hfold]
    have hfuel : n < 10 ^ 20 := by
      calc n < 2 ^ 63 := h
        _ < 10 ^ 20 := by norm_num
    have hval := foldl_decimalDigitsAux 20 n 0 hfuel
    simp only [Nat.zero_mul, Nat.zero_add] at hval
    have hbound : (decimalDigitsAux 20 n).foldl (fun s d => s * 10 + d) 0 < 2 ^ 63 := by
      rw [hval]; exact h
    have hwrap := foldl_wrap_eq_foldl (decimalDigitsAux 20 n) 0 hbound
    simp only [Nat.cast_zero] at hwrap
    rw [hwrap, hval]

/-- C10 (amended): `BytesToInt64` inverts `Int64ToBytes` exactly on every
non-negative `int64`.  On negative inputs the leading '-' byte is folded in
as the wrapped digit value 253 (there is no sign handling), so the
round-trip is wrong in general: `-1` parses back as `2531`. -/
theorem c10_roundtrip_amended :
    (∀ i : Int, 0 ≤ i → i < 2 ^ 63 → BytesToInt64 (Int64ToBytes i) = i)
    ∧ BytesToInt64 (Int64ToBytes (-1)) = 2531 := by
  constructor
  · intro i h0 h1
    unfold Int64ToBytes
    rw [if_neg (by omega)]
    have hn : i.toNat < 2 ^ 63 := by omega
    rw [BytesToInt64_decimalBytes i.toNat hn]
    exact Int.toNat_of_nonneg h0
  · decide

theorem c10_roundtrip_witness :
    BytesToInt64 (Int64ToBytes 1000) = 1000 :=
  c10_roundtrip_amended.1 1000 (by decide) (by decide)

/-- C10 counterexample: the claim that the round-trip returns `i` for no
negative `i` is false — `int64` wraparound in the digit accumulation makes
`BytesToInt64 (Int64ToBytes i) = i` hold for `i = -7825341085959061504`
(the '-' byte contributes `253 * 10^19` and `253 * 10^19 + 2 * |i|` is a
multiple of `2^64`). -/
theorem c10_negative_roundtrip_counterexample :
    BytesToInt64 (Int64ToBytes (-7825341085959061504)) = -7825341085959061504 := by
  decide

/-- C9 evaluation: on the input `abc\` — whose last byte is an unescaped
backslash — `ScanKey` increments `i` past the final byte and reads
`pointbuf[len(pointbuf)]`, an out-of-range access (a Go runtime panic),
instead of returning a key or an error. -/
theorem c9_scankey_panic_eval :
    ScanKey (strBytes "abc\\") = ScanResult.indexPanic := by decide

/-- C4 evaluation: with routing table `{db=a: {cpu: [B1]}}` (B1 modelled as
handle 1), writing `cpu,host=x v=1 1000` at precision `ms` makes B1 receive
`cpu,host=x v=1 0`: the source computes `t/d*d = 1000/10^6*10^6 = 0`,
not the `1000000000` nanoseconds the spec scenario expects. -/
theorem c4_exact_route_eval :
    WriteRow [(strBytes "a", [(strBytes "cpu", [(1 : Nat)])])]
        (strBytes "cpu,host=x v=1 1000") "ms" (strBytes "a") 0
      = some ([1], strBytes "cpu,host=x v=1 0")
    ∧ strBytes "cpu,host=x v=1 0" ≠ strBytes "cpu,host=x v=1 1000000000" := by
  decide

/-- C1 (confirmed): for every routing table, `GetBackends(m, db)` resolves
in priority order — the exact key `m` in `routes[db]` wins; otherwise the
value of some key of `routes[db]` that is a prefix of `m`; otherwise the
`_default_` entry; and the lookup fails (`none`) when the database is
unknown or when no key applies and `_default_` is absent. -/
theorem c1_getbackends_resolution {β : Type}
    (m2bs : List (List Nat × List (List Nat × β))) (db m : List Nat) :
    (lookupKey m2bs db = none → GetBackends m2bs m db = none)
    ∧ ∀ keyMap, lookupKey m2bs db = some keyMap →
        (∀ bs, lookupKey keyMap m = some bs → GetBackends m2bs m db = some bs)
        ∧ (lookupKey keyMap m = none →
            ((∃ kv ∈ keyMap, kv.1.isPrefixOf m = true) →
              ∃ kv ∈ keyMap, kv.1.isPrefixOf m = true ∧
                GetBackends m2bs m db = some kv.2)
            ∧ ((∀ kv ∈ keyMap, kv.1.isPrefixOf m = false) →
              GetBackends m2bs m db = lookupKey keyMap defaultKeyBytes)) := by
  constructor
  · intro h
    unfold GetBackends
    rw [h]
  · intro keyMap hdb
    constructor
    · intro bs hexact
      simp only [GetBackends, hdb, hexact]
    · intro hnone
      constructor
      · intro hex
        cases hfind : keyMap.find? (fun kv => kv.1.isPrefixOf m) with
        | none =>
            exfalso
            obtain ⟨kv, hkv, hpre⟩ := hex
            have hcontra := List.find?_eq_none.mp hfind kv hkv
            simp only [hpre, not_true] at hcontra
        | some kv =>
            refine ⟨kv, List.mem_of_find?_eq_some hfind,
              by simpa using List.find?_some hfind, ?_⟩
            simp only [GetBackends, hdb, hnone, hfind]
      · intro hall
        have hfind : keyMap.find? (fun kv => kv.1.isPrefixOf m) = none :=
          List.find?_eq_none.mpr (fun kv hkv => by simp [hall kv hkv])
        simp only [GetBackends, hdb, hnone, hfind]

theorem c1_getbackends_witness :
    GetBackends [(strBytes "a", [(strBytes "cpu", [(1 : Nat)])])]
        (strBytes "cpu") (strBytes "a") = some [1] :=
  ((c1_getbackends_resolution [(strBytes "a", [(strBytes "cpu", [(1 : Nat)])])]
      (strBytes "a") (strBytes "cpu")).2
    [(strBytes "cpu", [(1 : Nat)])] (by decide)).1 [1] (by decide)

/-- C2 (confirmed): `CheckQuery` returns `ErrQueryForbidden` whenever some
denylist regex matches, even if an allowlist regex also matches; and it
returns nil exactly when no denylist regex matches and the allowlist is
empty or some allowlist regex matches. -/
theorem c2_checkquery_policy (forb obl : List (String → Bool)) (q : String) :
    (CheckQuery forb obl q = CheckResult.ok ↔
      ((∀ f ∈ forb, f q = false) ∧ (obl = [] ∨ ∃ g ∈ obl, g q = true)))
    ∧ ((∃ f ∈ forb, f q = true) →
      CheckQuery forb obl q = CheckResult.queryForbidden) := by
  constructor
  · unfold CheckQuery
    split_ifs with h1 h2 h3
    · simp only [List.any_eq_true] at h1
      obtain ⟨f, hf, hfq⟩ := h1
      constructor
      · intro h; exact absurd h (by simp)
      · rintro ⟨hall, -⟩
        have := hall f hf
        rw [hfq] at this
        exact absurd this (by simp)
    · rw [Bool.not_eq_true, List.any_eq_false] at h1
      constructor
      · intro _
        refine ⟨fun f hf => ?_, Or.inl (List.isEmpty_iff.mp h2)⟩
        have := h1 f hf
        simpa using this
      · intro _; rfl
    · rw [Bool.not_eq_true, List.any_eq_false] at h1
      rw [List.any_eq_true] at h3
      constructor
      · intro _
        refine ⟨fun f hf => ?_, Or.inr h3⟩
        have := h1 f hf
        simpa using this
      · intro _; rfl
    · rw [Bool.not_eq_true, List.any_eq_false] at h3
      constructor
      · intro h; exact absurd h (by simp)
      · rintro ⟨-, hobl⟩
        rcases hobl with h | ⟨g, hg, hgq⟩
        · subst h; simp at h2
        · have := h3 g hg
          rw [hgq] at this
          exact absurd this (by simp)
  · rintro ⟨f, hf, hfq⟩
    unfold CheckQuery
    rw [if_pos (List.any_eq_true.mpr ⟨f, hf, hfq⟩)]

theorem c2_checkquery_witness :
    CheckQuery [fun s => s == "DROP DATABASE x"] [fun s => s == "DROP DATABASE x"]
        "DROP DATABASE x" = CheckResult.queryForbidden :=
  (c2_checkquery_policy _ _ _).2 ⟨_, List.mem_singleton.mpr rfl, by decide⟩

lemma mem_of_mem_tryUntilSuccess :
    ∀ (l : List ApiState) (a : ApiState), a ∈ tryUntilSuccess l → a ∈ l := by
  intro l
  induction l with
  | nil => intro a h; simp [tryUntilSuccess] at h
  | cons b rest ih =>
      intro a h
      cases hb : b.queryOk with
      | true =>
          rw [tryUntilSuccess, if_pos hb] at h
          rw [List.mem_singleton.mp h]
          exact List.mem_cons_self b rest
      | false =>
          rw [tryUntilSuccess, if_neg (by simp [hb])] at h
          rcases List.mem_cons.mp h with h1 | h1
          · rw [h1]; exact List.mem_cons_self b rest
          · exact List.mem_cons_of_mem _ (ih a h1)

/-- C6 (amended): every backend the query dispatch tries is active, and a
backend of the local zone is tried only when it is not write-only; the
other-zone pass checks only activity, so an active write-only backend of
another zone can be sent the query. -/
theorem c6_writeonly_dispatch_amended (localZone : String) (apis : List ApiState) :
    ∀ a ∈ QueryDispatchTried localZone apis,
      a.active = true ∧ (a.zone = localZone → a.writeOnly = false) := by
  intro a ha
  simp only [QueryDispatchTried] at ha
  split at ha
  · have hmem := mem_of_mem_tryUntilSuccess _ a ha
    have := (List.mem_filter.mp hmem).2
    simp only [Bool.and_eq_true, beq_iff_eq, Bool.not_eq_true'] at this
    exact ⟨this.1.2, fun _ => this.2⟩
  · rcases List.mem_append.mp ha with h | h
    · have hmem := mem_of_mem_tryUntilSuccess _ a h
      have := (List.mem_filter.mp hmem).2
      simp only [Bool.and_eq_true, beq_iff_eq, Bool.not_eq_true'] at this
      exact ⟨this.1.2, fun _ => this.2⟩
    · have hmem := mem_of_mem_tryUntilSuccess _ a h
      have := (List.mem_filter.mp hmem).2
      simp only [Bool.and_eq_true, Bool.not_eq_true', beq_eq_false_iff_ne] at this
      exact ⟨this.2, fun hz => absurd hz this.1⟩

theorem c6_writeonly_dispatch_witness :
    (ApiState.mk "east" true false true).active = true
    ∧ ((ApiState.mk "east" true false true).zone = "east" →
        (ApiState.mk "east" true false true).writeOnly = false) :=
  c6_writeonly_dispatch_amended "east" [ApiState.mk "east" true false true]
    (ApiState.mk "east" true false true) (by decide)

/-- C6 counterexample: with local zone "east" and a single active
write-only backend in zone "west", the second dispatch pass sends it the
query — the other-zone pass checks only `IsActive()`, not `IsWriteOnly()`,
so the claim that both passes exclude write-only backends is false. -/
theorem c6_writeonly_queried_counterexample :
    QueryDispatchTried "east" [ApiState.mk "west" true true true]
      = [ApiState.mk "west" true true true]
    ∧ (ApiState.mk "west" true true true).writeOnly = true := by decide

/-- C8 (amended): in each drainer step, `Rewrite` commits the spool read
cursor (`UpdateMeta`) exactly when `WriteCompressed` returned nil,
`ErrBadRequest` or `ErrNotFound` (ack or permanent drop); on any other
error it performs `RollbackMeta` so the record remains undelivered — but a
successful `RollbackMeta` makes `Rewrite` return nil, so the loop retries
immediately; the `RewriteInterval` sleep happens only when the upstream is
inactive or `Rewrite` itself returns an error. -/
theorem c8_rewrite_meta_amended :
    (∀ (rd : Except Unit (Option (List Nat))) (wc : List Nat → WcResult),
      MetaAction.updateMeta ∈ (Rewrite rd wc).1 ↔
        ∃ p, rd = .ok (some p) ∧
          (wc p = .ok ∨ wc p = .badRequest ∨ wc p = .notFound))
    ∧ (∀ (rd : Except Unit (Option (List Nat))) (wc : List Nat → WcResult)
        (p : List Nat), rd = .ok (some p) → wc p = .otherErr →
          Rewrite rd wc = ([MetaAction.rollbackMeta], false)
          ∧ RewriteLoopStep true true rd wc
              = (LoopStep.continueNow, [MetaAction.rollbackMeta])) := by
  constructor
  · intro rd wc
    match rd with
    | .error u => simp [Rewrite]
    | .ok none => simp [Rewrite]
    | .ok (some p) =>
        cases hw : wc p <;> simp [Rewrite, hw]
  · intro rd wc p hrd hwc
    subst hrd
    exact ⟨by simp [Rewrite, hwc], by simp [RewriteLoopStep, Rewrite, hwc]⟩

theorem c8_rewrite_meta_witness :
    Rewrite (Except.ok (some [49])) (fun _ => WcResult.otherErr)
      = ([MetaAction.rollbackMeta], false)
    ∧ RewriteLoopStep true true (Except.ok (some [49])) (fun _ => WcResult.otherErr)
      = (LoopStep.continueNow, [MetaAction.rollbackMeta]) :=
  c8_rewrite_meta_amended.2 _ _ [49] rfl rfl

/-- C8 counterexample: the claim's retry-delay clause fails on the code —
after a transient upstream error on an active backend, `RollbackMeta`
succeeds, `Rewrite` returns nil, and the loop iteration continues
immediately instead of sleeping `RewriteInterval`. -/
theorem c8_immediate_retry_counterexample :
    RewriteLoopStep true true (Except.ok (some [50])) (fun _ => WcResult.otherErr)
      = (LoopStep.continueNow, [MetaAction.rollbackMeta])
    ∧ LoopStep.continueNow ≠ LoopStep.sleepRetry := by decide

/-- C7 (confirmed): for each non-empty payload `p` the worker hands to
`WriteBuffer`, the buffer becomes the old contents followed by `p`, with a
newline appended exactly when `p` does not already end in one, and the row
counter is incremented; if the incremented counter reached `MaxRowLimit`
the buffer is flushed immediately, otherwise the flush timer is armed for
`Interval` milliseconds only when no timer is armed (an armed timer is
left alone). -/
theorem c7_writebuffer_behavior (maxRowLimit interval : Int) (s : BufState)
    (p : List Nat) (hp : p ≠ []) :
    ((p.getLast? = some 10 →
        s.buffer.getD [] ++ p ++ (if p.getLast? = some 10 then ([] : List Nat) else [10])
          = s.buffer.getD [] ++ p)
    ∧ (p.getLast? ≠ some 10 →
        s.buffer.getD [] ++ p ++ (if p.getLast? = some 10 then ([] : List Nat) else [10])
          = s.buffer.getD [] ++ p ++ [10]))
    ∧ (maxRowLimit ≤ wrap32 (s.counter + 1) →
        WriteBuffer maxRowLimit interval s p
          = some (⟨none, none, 0⟩,
              some (s.buffer.getD [] ++ p ++ (if p.getLast? = some 10 then [] else [10]))))
    ∧ (wrap32 (s.counter + 1) < maxRowLimit → s.timer = none →
        WriteBuffer maxRowLimit interval s p
          = some (⟨some (s.buffer.getD [] ++ p ++ (if p.getLast? = some 10 then [] else [10])),
              some interval, wrap32 (s.counter + 1)⟩, none))
    ∧ (wrap32 (s.counter + 1) < maxRowLimit → s.timer ≠ none →
        WriteBuffer maxRowLimit interval s p
          = some (⟨some (s.buffer.getD [] ++ p ++ (if p.getLast? = some 10 then [] else [10])),
              s.timer, wrap32 (s.counter + 1)⟩, none)) := by
  have hpe : p.isEmpty = false := by
    cases p with
    | nil => exact absurd rfl hp
    | cons b rest => rfl
  have hbufne : s.buffer.getD [] ++ p ++ (if p.getLast? = some 10 then ([] : List Nat) else [10]) ≠ [] := by
    intro hcontra
    rcases List.append_eq_nil.mp hcontra with ⟨h1, -⟩
    exact hp (List.append_eq_nil.mp h1).2
  refine ⟨⟨?_, ?_⟩, ?_, ?_, ?_⟩
  · intro h
    rw [if_pos h, List.append_nil]
  · intro h
    rw [if_neg h]
  · intro hmax
    have hempty := List.isEmpty_eq_false.mpr hbufne
    rw [WriteBuffer, if_neg (by simp [hpe])]
    simp only [if_pos hmax]
    rw [FlushState]
    simp only [hempty, Bool.false_eq_true, if_false]
  · intro hmax htimer
    rw [WriteBuffer, if_neg (by simp [hpe])]
    simp only [if_neg (by omega : ¬ maxRowLimit ≤ wrap32 (s.counter + 1)), if_pos htimer]
  · intro hmax htimer
    rw [WriteBuffer, if_neg (by simp [hpe])]
    simp only [if_neg (by omega : ¬ maxRowLimit ≤ wrap32 (s.counter + 1)), if_neg htimer]

theorem c7_writebuffer_witness :
    WriteBuffer 2 500 ⟨none, none, 0⟩ [97] = some (⟨some [97, 10], some 500, 1⟩, none) :=
  (c7_writebuffer_behavior 2 500 ⟨none, none, 0⟩ [97] (by decide)).2.2.1 (by decide) rfl

lemma GetPrecisionMultiplier_pos (precision : String) :
    0 < GetPrecisionMultiplier precision := by
  unfold GetPrecisionMultiplier
  split_ifs <;> norm_num

lemma tdiv_mul_wrap_eq (t d : Int) (h0 : 0 ≤ t) (h1 : t < 2 ^ 63) (hd : 0 < d) :
    wrap64 (Int.tdiv t d * d) = Int.tdiv t d * d := by
  rw [Int.tdiv_eq_ediv h0 (le_of_lt hd)]
  have hnn : 0 ≤ t / d * d := mul_nonneg (Int.ediv_nonneg h0 (le_of_lt hd)) (le_of_lt hd)
  have hle : t / d * d ≤ t := Int.ediv_mul_le t (ne_of_gt hd)
  exact wrap64_eq_of_bounds _ (by omega) (by omega)

/-- C3 (confirmed): for a routed line with an explicit timestamp (three
space-separated fields) whose timestamp token is the decimal form of `t`
and whose precision is one of ns/u/ms/s/m/h, `WriteRow` emits the line with
the trailing token replaced by `(t / d(p)) * d(p)` (truncating integer
division by the nanoseconds-per-unit multiplier); for a routed line with no
timestamp (two fields), the current time in nanoseconds truncated the same
way is appended. -/
theorem c3_timestamp_normalization :
    (∀ (γ : Type) (m2bs : List (List Nat × List (List Nat × List γ)))
      (line : List Nat) (precision : String) (db : List Nat) (now : Int)
      (f1 f2 tok : List Nat) (t : Nat) (k : List Nat) (bs : List γ),
      precision ∈ ["ns", "u", "ms", "s", "m", "h"] →
      trimRightWS line = line →
      splitSpace line = [f1, f2, tok] →
      tok = decimalBytes t → t < 2 ^ 63 →
      ScanKey line = ScanResult.key k →
      GetBackends m2bs k db = some bs →
      WriteRow m2bs line precision db now
        = some (bs, f1 ++ 32 :: f2 ++ 32 :: Int64ToBytes
            (Int.tdiv (t : Int) (GetPrecisionMultiplier precision)
              * GetPrecisionMultiplier precision)))
    ∧ (∀ (γ : Type) (m2bs : List (List Nat × List (List Nat × List γ)))
      (line : List Nat) (precision : String) (db : List Nat) (now : Int)
      (f1 f2 : List Nat) (k : List Nat) (bs : List γ),
      precision ∈ ["ns", "u", "ms", "s", "m", "h"] →
      0 ≤ now → now < 2 ^ 63 →
      trimRightWS line = line →
      splitSpace line = [f1, f2] →
      ScanKey line = ScanResult.key k →
      GetBackends m2bs k db = some bs →
      WriteRow m2bs line precision db now
        = some (bs, line ++ 32 :: Int64ToBytes
            (Int.tdiv now (GetPrecisionMultiplier precision)
              * GetPrecisionMultiplier precision))) := by
  constructor
  · intro γ m2bs line precision db now f1 f2 tok t k bs
      hp htrim hsplit htok ht hkey hroute
    have hne : line ≠ [] := by
      intro h
      rw [h] at hsplit
      simp [splitSpace] at hsplit
    have hd := GetPrecisionMultiplier_pos precision
    have htnn : (0 : Int) ≤ (t : Int) := Int.ofNat_nonneg t
    have htlt : (t : Int) < 2 ^ 63 := by exact_mod_cast ht
    simp only [WriteRow, htrim, if_neg hne, hkey, hroute, hsplit]
    have hlast : ([f1, f2, tok] : List (List Nat)).getLast?.getD [] = tok := rfl
    have hdrop : ([f1, f2, tok] : List (List Nat)).dropLast = [f1, f2] := rfl
    rw [hlast, hdrop, htok, BytesToInt64_decimalBytes t ht,
      tdiv_mul_wrap_eq _ _ htnn htlt hd]
    norm_num [joinSpace]
  · intro γ m2bs line precision db now f1 f2 k bs
      hp hnow0 hnow1 htrim hsplit hkey hroute
    have hne : line ≠ [] := by
      intro h
      rw [h] at hsplit
      simp [splitSpace] at hsplit
    have hd := GetPrecisionMultiplier_pos precision
    simp only [WriteRow, htrim, if_neg hne, hkey, hroute, hsplit]
    rw [tdiv_mul_wrap_eq _ _ hnow0 hnow1 hd]
    norm_num

theorem c3_timestamp_witness :
    WriteRow [(strBytes "a", [(strBytes "m", [(7 : Nat)])])]
        (strBytes "m,t=1 v=2 5") "s" (strBytes "a") 0
      = some ([7], strBytes "m,t=1" ++ 32 :: strBytes "v=2" ++ 32 :: Int64ToBytes
          (Int.tdiv ((5 : Nat) : Int) (GetPrecisionMultiplier "s")
            * GetPrecisionMultiplier "s")) :=
  c3_timestamp_normalization.1 Nat [(strBytes "a", [(strBytes "m", [(7 : Nat)])])]
    (strBytes "m,t=1 v=2 5") "s" (strBytes "a") 0
    (strBytes "m,t=1") (strBytes "v=2") (strBytes "5") 5 (strBytes "m") [7]
    (by decide) (by decide) (by decide) (by decide) (by decide) (by decide) (by decide)

/-- C5 (confirmed): `Cluster.Write` hands the original payload `p`,
unmodified, to every configured next-hop peer in `bas`, while every other
write in the trace goes to a routed backend and carries a line rewritten by
`WriteRow` from one of the payload's chunks. -/
theorem c5_nexthop_original_payload (γ : Type)
    (m2bs : List (List Nat × List (List Nat × List γ))) (bas : List γ)
    (p : List Nat) (precision : String) (db : List Nat) (now : Int) :
    (∀ ba ∈ bas, (ba, p) ∈ ClusterWrite m2bs bas p precision db now)
    ∧ (∀ w ∈ ClusterWrite m2bs bas p precision db now,
        w ∈ bas.map (fun ba => (ba, p))
        ∨ ∃ line ∈ readChunks p, ∃ bs out,
            WriteRow m2bs line precision db now = some (bs, out)
            ∧ w.1 ∈ bs ∧ w.2 = out) := by
  constructor
  · intro ba hba
    unfold ClusterWrite
    exact List.mem_append.mpr (Or.inr (List.mem_map.mpr ⟨ba, hba, rfl⟩))
  · intro w hw
    unfold ClusterWrite at hw
    rcases List.mem_append.mp hw with h | h
    · right
      rcases List.mem_flatten.mp h with ⟨l, hl, hwl⟩
      rcases List.mem_map.mp hl with ⟨line, hline, rfl⟩
      cases hwr : WriteRow m2bs line precision db now with
      | none => rw [hwr] at hwl; simp at hwl
      | some r =>
          obtain ⟨bs, out⟩ := r
          rw [hwr] at hwl
          simp only at hwl
          rcases List.mem_map.mp hwl with ⟨b, hb, rfl⟩
          exact ⟨line, hline, bs, out, hwr, hb, rfl⟩
    · left
      exact h

theorem c5_nexthop_witness :
    ((3 : Nat), strBytes "x v=1") ∈
      ClusterWrite [(strBytes "d", [(strBytes "x", [(9 : Nat)])])] [3]
        (strBytes "x v=1") "ns" (strBytes "d") 0 :=
  (c5_nexthop_original_payload Nat [(strBytes "d", [(strBytes "x", [(9 : Nat)])])]
    [3] (strBytes "x v=1") "ns" (strBytes "d") 0).1 3 (by decide)
